import Mathlib

/-
Verification of the OCR PDF processor (src/OCR_tools/ocr_pdf.py).

The development shallowly embeds the pure text-processing core of the
script over `List Char` (Python `str` values) and `List Nat` (byte strings),
and models the effectful pipeline (`process_pdf_from_url`, `__main__`) as a
state-passing function indexed by the point, if any, at which an exception
is raised.

Library functions used by the source are embedded as follows:
  - `str.replace(old, new)` : `replaceAll` (leftmost, non-overlapping,
    replace-all semantics of CPython);
  - `str.split('\n')`, `str.strip()`, `str.split(sep)[-1]` : `pySplitNL`,
    `pyStrip`, `pySplitLast` (CPython semantics; whitespace is modelled as
    the ASCII whitespace characters, which covers every input appearing in
    the source and in the claims);
  - `re.findall` / `re.sub` with the source's image pattern
    `!\[(.*?)\]\(\s*(data:image/(?:png|jpg|jpeg|gif);base64,([^)]*))\)` :
    a direct scanner (`scanLine`) implementing the leftmost, lazy-alt-text
    matching semantics of this concrete pattern under the `re` module;
    `findall` and `sub` are both derived from the single scanner, exactly as
    both library calls use the single pattern;
  - `base64.b64decode` (validate=False) : `pyB64decode`, returning `none`
    where CPython raises `binascii.Error` (non-alphabet characters are
    discarded; a filtered length that is not a multiple of four, or
    misplaced padding, is an error);
  - `PIL.Image.open` + `run.add_picture` : an oracle parameter
    `pil : List Nat → PilOutcome` giving, for the decoded bytes, which of
    the three ways the try block at lines 142-148 of the source can go:
    `Image.open` raises (nothing is added); `Image.open` succeeds but
    `run.add_picture` raises, after `document.add_paragraph().add_run()`
    at line 147 has already appended a paragraph, which is then left empty
    in the document; or both succeed and the paragraph holds the picture.
    Image validity is decided by external libraries, so it is a parameter
    of the model;
  - the `docx.Document` being built is modelled as the list of its
    paragraphs; a paragraph is plain text or a single inline picture (a
    paragraph left behind by a failed `add_picture` is an empty text
    paragraph).
Exceptions that propagate out of a function are modelled with `Except`.
-/

namespace OcrPdf

/-- Boolean prefix test on character lists: `isPre p s` holds iff `p` is a
prefix of `s`. Used to model pattern tests of `str.replace` and the regex
scanner. -/
def isPre : List Char → List Char → Bool
  | [], _ => true
  | _ :: _, [] => false
  | a :: p, b :: s => if a = b then isPre p s else false

theorem isPre_nil (s : List Char) : isPre [] s = true := rfl

theorem isPre_eq_true_iff : ∀ (p s : List Char), isPre p s = true ↔ ∃ t, s = p ++ t := by
  intro p
  induction p with
  | nil => intro s; simp [isPre]
  | cons a p ih =>
    intro s
    cases s with
    | nil =>
      simp only [isPre, Bool.false_eq_true, false_iff, not_exists]
      intro t ht
      exact List.cons_ne_nil a (p ++ t) ht.symm
    | cons b s =>
      simp only [isPre]
      by_cases hab : a = b
      · subst hab
        rw [if_pos rfl, ih s]
        constructor
        · rintro ⟨t, rfl⟩; exact ⟨t, rfl⟩
        · rintro ⟨t, ht⟩
          rw [List.cons_append] at ht
          injection ht with _ h2
          exact ⟨t, h2⟩
      · rw [if_neg hab]
        simp only [Bool.false_eq_true, false_iff, not_exists]
        intro t ht
        rw [List.cons_append] at ht
        injection ht with h1 _
        exact hab h1.symm

theorem isPre_append (p t : List Char) : isPre p (p ++ t) = true :=
  (isPre_eq_true_iff p (p ++ t)).mpr ⟨t, rfl⟩

theorem isPre_head_ne {a b : Char} {p s : List Char} (h : a ≠ b) :
    isPre (a :: p) (b :: s) = false := by
  simp [isPre, if_neg h]

/-- Fuelled worker for `replaceAll`; one unit of fuel is consumed per step,
and every step consumes at least one character of the subject string, so
`s.length` fuel always suffices. -/
def replaceAllF (pat rep : List Char) : Nat → List Char → List Char
  | _, [] => []
  | 0, s => s
  | fuel + 1, c :: s =>
    if isPre pat (c :: s) then
      rep ++ replaceAllF pat rep fuel (s.drop (pat.length - 1))
    else
      c :: replaceAllF pat rep fuel s

/-- CPython `str.replace(pat, rep)`: replace every leftmost, non-overlapping
occurrence of `pat` by `rep`, scanning left to right. (The source only ever
calls it with a non-empty pattern.) -/
def replaceAll (pat rep s : List Char) : List Char :=
  replaceAllF pat rep s.length s

theorem replaceAllF_nil (pat rep : List Char) (fuel : Nat) :
    replaceAllF pat rep fuel [] = [] := by
  cases fuel <;> rfl

theorem replaceAllF_fuel (pat rep : List Char) :
    ∀ (fuel : Nat) (s : List Char), s.length ≤ fuel →
      replaceAllF pat rep fuel s = replaceAllF pat rep s.length s := by
  intro fuel
  induction fuel using Nat.strong_induction_on with
  | _ n ih =>
    intro s hs
    cases s with
    | nil => rw [replaceAllF_nil, replaceAllF_nil]
    | cons c s =>
      cases n with
      | zero => simp at hs
      | succ m =>
        simp only [List.length_cons] at hs
        have hs' : s.length ≤ m := by omega
        simp only [List.length_cons, replaceAllF]
        by_cases h : isPre pat (c :: s) = true
        · rw [if_pos h, if_pos h]
          have hd : (s.drop (pat.length - 1)).length ≤ s.length := by
            simp [List.length_drop]
          rw [ih m (by omega) _ (Nat.le_trans hd hs'),
            ih s.length (by omega) _ hd]
        · rw [if_neg h, if_neg h, ih m (by omega) _ hs']

theorem replaceAll_nil (pat rep : List Char) : replaceAll pat rep [] = [] := rfl

theorem replaceAll_cons_pos {pat : List Char} (rep : List Char) {c : Char} {s : List Char}
    (h : isPre pat (c :: s) = true) :
    replaceAll pat rep (c :: s) = rep ++ replaceAll pat rep (s.drop (pat.length - 1)) := by
  unfold replaceAll
  simp only [List.length_cons, replaceAllF]
  rw [if_pos h, replaceAllF_fuel pat rep s.length _ (by simp [List.length_drop])]

theorem replaceAll_cons_neg {pat : List Char} (rep : List Char) {c : Char} {s : List Char}
    (h : isPre pat (c :: s) = false) :
    replaceAll pat rep (c :: s) = c :: replaceAll pat rep s := by
  unfold replaceAll
  simp only [List.length_cons, replaceAllF]
  rw [if_neg (by simp [h])]

/-! ### The Markdown Assembler (ocr_pdf.py lines 77-96) -/

/-- The placeholder string Python builds at line 83 of the source:
the characters of the f-string `![{img_name}]({img_name})`. -/
def ph (i : List Char) : List Char :=
  '!' :: '[' :: (i ++ (']' :: '(' :: (i ++ [')'])))

/-- The embedded-image data URI prefix written at line 84 of the source. -/
def dataPfx : List Char := "data:image/png;base64,".data

/-- The replacement string Python builds at line 84 of the source:
the characters of the f-string `![{img_name}](data:image/png;base64,{base64_str})`. -/
def emb (i v : List Char) : List Char :=
  '!' :: '[' :: (i ++ (']' :: '(' :: (dataPfx ++ v ++ [')'])))

/-- ocr_pdf.py lines 77-86, `replace_images_in_markdown`: for each
`(img_name, base64_str)` of the dict, in insertion order, replace every
occurrence of `![img_name](img_name)` in the current string by
`![img_name](data:image/png;base64,base64_str)`. A Python dict is modelled
as its association list in insertion order. -/
def replace_images_in_markdown (markdown_str : List Char)
    (images_dict : List (List Char × List Char)) : List Char :=
  images_dict.foldl (fun s p => replaceAll (ph p.1) (emb p.1 p.2) s) markdown_str

/-- One image of an OCR page, with the field names of the Mistral response
object used at line 94 of the source. -/
structure OcrImage where
  id : List Char
  image_base64 : List Char
  deriving DecidableEq, Repr

/-- One page of the OCR response, with the fields used at lines 94-95. -/
structure OcrPage where
  markdown : List Char
  images : List OcrImage
  deriving DecidableEq, Repr

/-- The OCR response: an ordered sequence of pages. -/
structure OCRResponse where
  pages : List OcrPage
  deriving DecidableEq, Repr

/-- The dict comprehension `{img.id: img.image_base64 for img in page.images}`
at line 94: insertion-ordered, with a repeated key keeping its first
position and its last value. -/
def pyDictUpd (m : List (List Char × List Char)) (kv : List Char × List Char) :
    List (List Char × List Char) :=
  match m with
  | [] => [kv]
  | p :: rest => if p.1 = kv.1 then (p.1, kv.2) :: rest else p :: pyDictUpd rest kv

def pyDictOfList (l : List (List Char × List Char)) : List (List Char × List Char) :=
  l.foldl pyDictUpd []

/-- `"\n\n".join(markdowns)` at line 96. -/
def joinPages : List (List Char) → List Char
  | [] => []
  | [x] => x
  | x :: xs => x ++ ('\n' :: '\n' :: joinPages xs)

/-- ocr_pdf.py lines 88-96, `get_combined_markdown`: per page, build the
id-to-base64 dict and substitute placeholders, then join the transformed
page texts with a blank line. -/
def get_combined_markdown (ocr_response : OCRResponse) : List Char :=
  joinPages (ocr_response.pages.map fun page =>
    replace_images_in_markdown page.markdown
      (pyDictOfList (page.images.map fun img => (img.id, img.image_base64))))

/-! ### A single-pass substitution, used to state claim C2

`substOnePass` walks the string once, left to right; at each position it
replaces the placeholder of the first dict entry whose placeholder starts
there (emitting the embedded reference with that entry's own payload and
continuing after the placeholder), and copies every other character
unchanged. It therefore replaces each placeholder occurrence of a mapped id
exactly once, with the identical payload from the mapping, and leaves all
remaining text, in particular placeholders of unmapped ids, untouched.
Claim C2 is settled by comparing `replace_images_in_markdown` with it. -/

def substOnePassF (images : List (List Char × List Char)) : Nat → List Char → List Char
  | _, [] => []
  | 0, s => s
  | fuel + 1, c :: s =>
    match images.find? (fun p => isPre (ph p.1) (c :: s)) with
    | some p => emb p.1 p.2 ++ substOnePassF images fuel (s.drop ((ph p.1).length - 1))
    | none => c :: substOnePassF images fuel s

def substOnePass (images : List (List Char × List Char)) (s : List Char) : List Char :=
  substOnePassF images s.length s

theorem substOnePassF_nil (images : List (List Char × List Char)) (fuel : Nat) :
    substOnePassF images fuel [] = [] := by
  cases fuel <;> rfl

theorem substOnePassF_fuel (images : List (List Char × List Char)) :
    ∀ (fuel : Nat) (s : List Char), s.length ≤ fuel →
      substOnePassF images fuel s = substOnePassF images s.length s := by
  intro fuel
  induction fuel using Nat.strong_induction_on with
  | _ n ih =>
    intro s hs
    cases s with
    | nil => rw [substOnePassF_nil, substOnePassF_nil]
    | cons c s =>
      cases n with
      | zero => simp at hs
      | succ m =>
        simp only [List.length_cons] at hs
        have hs' : s.length ≤ m := by omega
        simp only [List.length_cons, substOnePassF]
        cases hf : images.find? (fun p => isPre (ph p.1) (c :: s)) with
        | some p =>
          dsimp only
          have hd : (s.drop ((ph p.1).length - 1)).length ≤ s.length := by
            simp [List.length_drop]
          rw [ih m (by omega) _ (Nat.le_trans hd hs'),
            ih s.length (by omega) _ hd]
        | none =>
          dsimp only
          rw [ih m (by omega) _ hs']

theorem substOnePass_nil (images : List (List Char × List Char)) :
    substOnePass images [] = [] := rfl

theorem substOnePass_cons_some {images : List (List Char × List Char)}
    {c : Char} {s : List Char} {p : List Char × List Char}
    (h : images.find? (fun p => isPre (ph p.1) (c :: s)) = some p) :
    substOnePass images (c :: s) =
      emb p.1 p.2 ++ substOnePass images (s.drop ((ph p.1).length - 1)) := by
  unfold substOnePass
  simp only [List.length_cons, substOnePassF, h]
  rw [substOnePassF_fuel images s.length _ (by simp [List.length_drop])]

theorem substOnePass_cons_none {images : List (List Char × List Char)}
    {c : Char} {s : List Char}
    (h : images.find? (fun p => isPre (ph p.1) (c :: s)) = none) :
    substOnePass images (c :: s) = c :: substOnePass images s := by
  unfold substOnePass
  simp only [List.length_cons, substOnePassF, h]

theorem substOnePass_no_images : ∀ s : List Char, substOnePass [] s = s := by
  intro s
  induction s with
  | nil => rfl
  | cons c s ih => rw [substOnePass_cons_none (by simp), ih]

/-! ### Character classes for the non-interference hypotheses of claim C2 -/

/-- An image-identifier character: not one of the structural characters of a
placeholder or of an embedded data reference. Realistic OCR image ids such
as `img-0.jpeg` satisfy this. -/
def idChar (c : Char) : Bool :=
  !(c = '!' || c = '[' || c = ']' || c = '(' || c = ')' || c = ':')

def idOK (i : List Char) : Bool := i.all idChar

/-- Value of a character of the standard base64 alphabet. -/
def b64Val (c : Char) : Option Nat :=
  if 'A' ≤ c ∧ c ≤ 'Z' then some (c.toNat - 65)
  else if 'a' ≤ c ∧ c ≤ 'z' then some (c.toNat - 71)
  else if '0' ≤ c ∧ c ≤ '9' then some (c.toNat + 4)
  else if c = '+' then some 62
  else if c = '/' then some 63
  else none

/-- A character that can occur in a base64 payload: alphabet or padding. -/
def b64OrPad (c : Char) : Bool := (b64Val c).isSome || c = '='

def valOK (v : List Char) : Bool := v.all b64OrPad

theorem idOK_no_bang {i : List Char} (h : idOK i = true) : '!' ∉ i := by
  intro hm
  have hc := List.all_eq_true.mp h _ hm
  simp [idChar] at hc

theorem valOK_no_bang {v : List Char} (h : valOK v = true) : '!' ∉ v := by
  intro hm
  have hc := List.all_eq_true.mp h _ hm
  revert hc
  decide

theorem idChar_ne_rbracket {c : Char} (h : idChar c = true) : c ≠ ']' := by
  intro he; subst he; simp [idChar] at h

theorem idChar_ne_bang {c : Char} (h : idChar c = true) : c ≠ '!' := by
  intro he; subst he; simp [idChar] at h

/-! ### Non-interference lemmas -/

/-- A pattern starting with an exclamation mark finds no occurrence inside a
block that contains none, so `str.replace` copies the block verbatim. -/
theorem skip_nobang {pr rep : List Char} :
    ∀ {a : List Char}, '!' ∉ a → ∀ b : List Char,
      replaceAll ('!' :: pr) rep (a ++ b) = a ++ replaceAll ('!' :: pr) rep b := by
  intro a
  induction a with
  | nil => intro _ b; rfl
  | cons x a ih =>
    intro ha b
    have hx : ('!' : Char) ≠ x := fun he => ha (by simp [he.symm])
    rw [List.cons_append, replaceAll_cons_neg rep (isPre_head_ne hx),
      ih (fun hm => ha (List.mem_cons_of_mem _ hm)) b]
    rfl

/-- Every placeholder pattern starts with an exclamation mark, so the
one-pass substitution also copies a bang-free block verbatim. -/
theorem onePass_nobang (images : List (List Char × List Char)) :
    ∀ {a : List Char}, '!' ∉ a → ∀ b : List Char,
      substOnePass images (a ++ b) = a ++ substOnePass images b := by
  intro a
  induction a with
  | nil => intro _ b; rfl
  | cons x a ih =>
    intro ha b
    have hx : ('!' : Char) ≠ x := fun he => ha (by simp [he.symm])
    have hnone : images.find? (fun p => isPre (ph p.1) (x :: (a ++ b))) = none := by
      rw [List.find?_eq_none]
      intro p _
      rw [ph, isPre_head_ne hx]
      simp
    rw [List.cons_append, substOnePass_cons_none hnone,
      ih (fun hm => ha (List.mem_cons_of_mem _ hm)) b]
    rfl

/-- Replacing placeholders of one id neither creates nor destroys a prefix
that contains no exclamation mark: prefixes of the transformed string that
start strictly below a bang are exactly those of the original string. -/
theorem isPre_transfer (i v : List Char) :
    ∀ (t q : List Char), '!' ∉ q →
      isPre q (replaceAll (ph i) (emb i v) t) = isPre q t := by
  intro t
  induction t with
  | nil => intro q _; rw [replaceAll_nil]
  | cons c t' ih =>
    intro q hq
    cases q with
    | nil => rw [isPre_nil, isPre_nil]
    | cons x q' =>
      have hx : x ≠ '!' := fun he => hq (by simp [he])
      by_cases hp : isPre (ph i) (c :: t') = true
      · have hc : c = '!' := by
          obtain ⟨u, hu⟩ := (isPre_eq_true_iff _ _).mp hp
          rw [ph, List.cons_append] at hu
          injection hu
        subst hc
        rw [replaceAll_cons_pos _ hp,
          (isPre_head_ne hx : isPre (x :: q') ('!' :: t') = false),
          emb, List.cons_append]
        exact isPre_head_ne hx
      · have hp' : isPre (ph i) (c :: t') = false := by
          cases hb : isPre (ph i) (c :: t')
          · rfl
          · exact absurd hb hp
        rw [replaceAll_cons_neg _ hp']
        simp only [isPre]
        by_cases hxc : x = c
        · rw [if_pos hxc, if_pos hxc,
            ih q' (fun hm => hq (List.mem_cons_of_mem _ hm))]
        · rw [if_neg hxc, if_neg hxc]

/-- Two id strings over `idChar` followed by the closing-bracket boundary:
a placeholder body of one id is never a prefix of text that continues with
a different id at the same boundary. -/
theorem id_cut : ∀ (j i : List Char), idOK j = true → idOK i = true → j ≠ i →
    ∀ (A B : List Char), isPre (j ++ (']' :: A)) (i ++ (']' :: B)) = false := by
  intro j
  induction j with
  | nil =>
    intro i hj hi hne A B
    cases i with
    | nil => exact absurd rfl hne
    | cons d i' =>
      have hd := List.all_eq_true.mp hi _ (List.mem_cons_self d i')
      rw [List.nil_append, List.cons_append]
      exact isPre_head_ne (fun he => idChar_ne_rbracket hd he.symm)
  | cons a j' ihj =>
    intro i hj hi hne A B
    have haj := List.all_eq_true.mp hj _ (List.mem_cons_self a j')
    cases i with
    | nil =>
      rw [List.cons_append, List.nil_append]
      exact isPre_head_ne (idChar_ne_rbracket haj)
    | cons d i' =>
      rw [List.cons_append, List.cons_append]
      simp only [isPre]
      by_cases had : a = d
      · rw [if_pos had]
        have hne' : j' ≠ i' := by
          intro he
          exact hne (by rw [had, he])
        exact ihj i' (List.all_eq_true.mpr fun c hc =>
            List.all_eq_true.mp hj _ (List.mem_cons_of_mem _ hc))
          (List.all_eq_true.mpr fun c hc =>
            List.all_eq_true.mp hi _ (List.mem_cons_of_mem _ hc))
          hne' A B
      · rw [if_neg had]

theorem isPre_cons_same (a : Char) (p s : List Char) :
    isPre (a :: p) (a :: s) = isPre p s := by
  simp [isPre]

/-- The embedded reference written for id `i` does not begin with the
placeholder of any other id `j`, whatever text follows it. -/
theorem emb_not_ph {i j v : List Char} (hne : j ≠ i) (hj : idOK j = true)
    (hi : idOK i = true) (X : List Char) :
    isPre (ph j) (emb i v ++ X) = false := by
  rw [ph, emb, List.cons_append, List.cons_append, isPre_cons_same,
    isPre_cons_same, List.append_assoc, List.cons_append, List.cons_append]
  exact id_cut j i hj hi hne _ _

theorem find_congr {α : Type} (l : List α) {p q : α → Bool}
    (h : ∀ a ∈ l, p a = q a) : l.find? p = l.find? q := by
  induction l with
  | nil => rfl
  | cons a l ih =>
    simp only [List.find?]
    rw [h a (List.mem_cons_self a l)]
    cases q a with
    | true => rfl
    | false => exact ih fun x hx => h x (List.mem_cons_of_mem _ hx)

/-- The one-pass substitution for the remaining dict entries walks straight
over an embedded reference freshly written for an id absent from them. -/
theorem emb_skip {i v : List Char} (rest : List (List Char × List Char))
    (hi : idOK i = true) (hv : valOK v = true)
    (hr : ∀ p ∈ rest, idOK p.1 = true) (hni : ∀ p ∈ rest, p.1 ≠ i)
    (Y : List Char) :
    substOnePass rest (emb i v ++ Y) = emb i v ++ substOnePass rest Y := by
  have hbody : '!' ∉ ('[' :: (i ++ (']' :: '(' :: (dataPfx ++ v ++ [')'])))) := by
    intro hm
    rcases List.mem_cons.mp hm with h | hm2
    · exact absurd h (by decide)
    rcases List.mem_append.mp hm2 with h | hm3
    · exact idOK_no_bang hi h
    rcases List.mem_cons.mp hm3 with h | hm4
    · exact absurd h (by decide)
    rcases List.mem_cons.mp hm4 with h | hm5
    · exact absurd h (by decide)
    rcases List.mem_append.mp hm5 with hm6 | h
    · rcases List.mem_append.mp hm6 with h | h
      · exact absurd h (by decide)
      · exact valOK_no_bang hv h
    · rcases List.mem_cons.mp h with h | h
      · exact absurd h (by decide)
      · exact absurd h (List.not_mem_nil _)
  have hnone : rest.find? (fun p => isPre (ph p.1) (emb i v ++ Y)) = none := by
    rw [List.find?_eq_none]
    intro p hp
    rw [emb_not_ph (hni p hp) (hr p hp) hi]
    simp
  have key : emb i v ++ Y =
      '!' :: (('[' :: (i ++ (']' :: '(' :: (dataPfx ++ v ++ [')'])))) ++ Y) := by
    rw [emb, List.cons_append]
  rw [key] at hnone ⊢
  rw [substOnePass_cons_none hnone, onePass_nobang rest hbody Y]
  simp [emb, List.append_assoc]

theorem ph_eq (j : List Char) :
    ph j = '!' :: ('[' :: (j ++ (']' :: '(' :: (j ++ [')'])))) := rfl

theorem ph_body_no_bang {j : List Char} (hj : idOK j = true) :
    '!' ∉ ('[' :: (j ++ (']' :: '(' :: (j ++ [')'])))) := by
  intro hm
  rcases List.mem_cons.mp hm with h | hm2
  · exact absurd h (by decide)
  rcases List.mem_append.mp hm2 with h | hm3
  · exact idOK_no_bang hj h
  rcases List.mem_cons.mp hm3 with h | hm4
  · exact absurd h (by decide)
  rcases List.mem_cons.mp hm4 with h | hm5
  · exact absurd h (by decide)
  rcases List.mem_append.mp hm5 with h | h
  · exact idOK_no_bang hj h
  · rcases List.mem_cons.mp h with h | h
    · exact absurd h (by decide)
    · exact absurd h (List.not_mem_nil _)

/-- Key step for claim C2: under the non-interference hypotheses, one pass
of `str.replace` for the first dict entry followed by the one-pass
substitution for the remaining entries equals the one-pass substitution for
the whole dict. -/
theorem onePass_replace_comm (i v : List Char) (rest : List (List Char × List Char))
    (hi : idOK i = true) (hv : valOK v = true)
    (hr : ∀ p ∈ rest, idOK p.1 = true) (hni : ∀ p ∈ rest, p.1 ≠ i) :
    ∀ (n : Nat) (s : List Char), s.length ≤ n →
      substOnePass rest (replaceAll (ph i) (emb i v) s) =
        substOnePass ((i, v) :: rest) s := by
  intro n
  induction n using Nat.strong_induction_on with
  | _ n ih =>
    intro s hs
    cases s with
    | nil => rw [replaceAll_nil, substOnePass_nil, substOnePass_nil]
    | cons c s' =>
      simp only [List.length_cons] at hs
      by_cases hA : isPre (ph i) (c :: s') = true
      · rw [replaceAll_cons_pos _ hA, emb_skip rest hi hv hr hni _]
        have hd : (s'.drop ((ph i).length - 1)).length ≤ s'.length := by
          simp [List.length_drop]
        rw [ih s'.length (by omega) _ hd]
        have hf : ((i, v) :: rest).find? (fun p => isPre (ph p.1) (c :: s')) =
            some (i, v) := List.find?_cons_of_pos _ hA
        rw [substOnePass_cons_some hf]
      · have hA' : isPre (ph i) (c :: s') = false := by
          cases hb : isPre (ph i) (c :: s')
          · rfl
          · exact absurd hb hA
        rw [replaceAll_cons_neg _ hA']
        by_cases hc : c = '!'
        · subst hc
          have htrans : ∀ p ∈ rest,
              (isPre (ph p.1) ('!' :: replaceAll (ph i) (emb i v) s')) =
                (isPre (ph p.1) ('!' :: s')) := by
            intro p hp
            rw [ph_eq p.1, isPre_cons_same, isPre_cons_same]
            exact isPre_transfer i v s' _ (ph_body_no_bang (hr p hp))
          have hfind : rest.find?
                (fun p => isPre (ph p.1) ('!' :: replaceAll (ph i) (emb i v) s')) =
              rest.find? (fun p => isPre (ph p.1) ('!' :: s')) :=
            find_congr rest htrans
          cases hf : rest.find? (fun p => isPre (ph p.1) ('!' :: s')) with
          | some p =>
            have hpre : isPre (ph p.1) ('!' :: s') = true := by
              simpa using List.find?_some hf
            obtain ⟨tail, htail⟩ := (isPre_eq_true_iff _ _).mp hpre
            have hpmem : p ∈ rest := List.mem_of_find?_eq_some hf
            have hjOK : idOK p.1 = true := hr p hpmem
            have hs'eq : s' = ('[' :: (p.1 ++ (']' :: '(' :: (p.1 ++ [')'])))) ++ tail := by
              rw [ph_eq p.1, List.cons_append] at htail
              injection htail
            have hlen : (ph p.1).length - 1 =
                ('[' :: (p.1 ++ (']' :: '(' :: (p.1 ++ [')'])))).length := by
              rw [ph_eq p.1]
              simp
            have hfL : rest.find?
                (fun q => isPre (ph q.1) ('!' :: replaceAll (ph i) (emb i v) s')) =
                some p := by rw [hfind, hf]
            rw [substOnePass_cons_some hfL]
            have hR : replaceAll (ph i) (emb i v) s' =
                ('[' :: (p.1 ++ (']' :: '(' :: (p.1 ++ [')'])))) ++
                  replaceAll (ph i) (emb i v) tail := by
              rw [hs'eq, ph_eq i]
              exact skip_nobang (ph_body_no_bang hjOK) tail
            have hdropL : (replaceAll (ph i) (emb i v) s').drop ((ph p.1).length - 1) =
                replaceAll (ph i) (emb i v) tail := by
              rw [hR, hlen, List.drop_left]
            rw [hdropL]
            have htl : tail.length < n := by
              have hsl : s'.length =
                  ('[' :: (p.1 ++ (']' :: '(' :: (p.1 ++ [')'])))).length + tail.length := by
                rw [hs'eq, List.length_append]
              have hone : ('[' :: (p.1 ++ (']' :: '(' :: (p.1 ++ [')'])))).length =
                  (p.1 ++ (']' :: '(' :: (p.1 ++ [')']))).length + 1 :=
                List.length_cons _ _
              omega
            rw [ih tail.length htl tail (le_refl _)]
            have hfR : ((i, v) :: rest).find? (fun q => isPre (ph q.1) ('!' :: s')) =
                some p := by
              rw [List.find?_cons_of_neg _ (by rw [hA']; exact Bool.false_ne_true), hf]
            rw [substOnePass_cons_some hfR]
            have hdropR : s'.drop ((ph p.1).length - 1) = tail := by
              rw [hs'eq, hlen, List.drop_left]
            rw [hdropR]
          | none =>
            have hfL : rest.find?
                (fun q => isPre (ph q.1) ('!' :: replaceAll (ph i) (emb i v) s')) =
                none := by rw [hfind, hf]
            rw [substOnePass_cons_none hfL]
            have hfR : ((i, v) :: rest).find? (fun q => isPre (ph q.1) ('!' :: s')) =
                none := by
              rw [List.find?_cons_of_neg _ (by rw [hA']; exact Bool.false_ne_true), hf]
            rw [substOnePass_cons_none hfR, ih s'.length (by omega) s' (le_refl _)]
        · have hnoneL : rest.find?
              (fun p => isPre (ph p.1) (c :: replaceAll (ph i) (emb i v) s')) = none := by
            rw [List.find?_eq_none]
            intro p _
            rw [ph_eq p.1, isPre_head_ne (fun he => hc he.symm)]
            simp
          have hnoneR : ((i, v) :: rest).find?
              (fun p => isPre (ph p.1) (c :: s')) = none := by
            rw [List.find?_eq_none]
            intro p _
            rw [ph_eq p.1, isPre_head_ne (fun he => hc he.symm)]
            simp
          rw [substOnePass_cons_none hnoneL, substOnePass_cons_none hnoneR,
            ih s'.length (by omega) s' (le_refl _)]

/-- Claim C2, amended: under distinct ids over identifier characters and
base64 payloads, the sequential `str.replace` loop of the source equals the
single-pass simultaneous substitution. -/
theorem replace_images_eq_onePass :
    ∀ (images : List (List Char × List Char)) (s : List Char),
      (∀ p ∈ images, idOK p.1 = true ∧ valOK p.2 = true) →
      (images.map Prod.fst).Nodup →
      replace_images_in_markdown s images = substOnePass images s := by
  intro images
  induction images with
  | nil => intro s _ _; rw [substOnePass_no_images]; rfl
  | cons hd rest ih =>
    intro s hOK hnd
    obtain ⟨i, v⟩ := hd
    rw [List.map_cons] at hnd
    have hpair := List.nodup_cons.mp hnd
    have hstep : replace_images_in_markdown s ((i, v) :: rest) =
        replace_images_in_markdown (replaceAll (ph i) (emb i v) s) rest := rfl
    rw [hstep, ih _ (fun p hp => hOK p (List.mem_cons_of_mem _ hp)) hpair.2]
    have hmemOK := hOK (i, v) (List.mem_cons_self _ _)
    have hni : ∀ p ∈ rest, p.1 ≠ i := by
      intro p hp he
      have hmem : i ∈ rest.map Prod.fst := by
        rw [← he]
        exact List.mem_map_of_mem Prod.fst hp
      exact hpair.1 hmem
    exact onePass_replace_comm i v rest hmemOK.1 hmemOK.2
      (fun p hp => (hOK p (List.mem_cons_of_mem _ hp)).1) hni s.length s (le_refl _)

/-! ### The Document Renderer (ocr_pdf.py lines 98-157)

The regular expression at line 113,
`!\[(.*?)\]\(\s*(data:image/(?:png|jpg|jpeg|gif);base64,([^)]*))\)`,
is embedded as a direct scanner with the matching semantics of the `re`
module on this concrete pattern: at each start position, a match requires
the literal `![`, then the shortest (lazy) alt text not containing a
newline that is followed by the literal `](`, greedy whitespace, the
literal `data:image/`, the first of the subtypes png, jpg, jpeg, gif whose
text is followed by the literal `;base64,`, the greedy run of
non-right-parenthesis characters, and the literal `)`.  Group 2 spans from
`data:` to the end of that run; group 3 is the run itself.  Scanning is
leftmost and non-overlapping, exactly as `re.findall` and `re.sub` with
this pattern. -/

/-- Python `\s` and `str.strip` whitespace, restricted to ASCII. -/
def isSpaceChar (c : Char) : Bool :=
  c = ' ' || c = '\t' || c = '\n' || c = '\r' || c = '\x0b' || c = '\x0c'

/-- Python `str.strip()`. -/
def pyStrip (s : List Char) : List Char :=
  ((s.dropWhile isSpaceChar).reverse.dropWhile isSpaceChar).reverse

/-- Split at the first right parenthesis: the run matched by `[^)]*`
followed by `\)`, or `none` when no right parenthesis remains. -/
def splitAtRparen : List Char → Option (List Char × List Char)
  | [] => none
  | ')' :: rest => some ([], rest)
  | c :: rest =>
    match splitAtRparen rest with
    | some (run, after) => some (c :: run, after)
    | none => none

def dataImg : List Char := "data:image/".data

def b64comma : List Char := ";base64,".data

/-- The alternation `(?:png|jpg|jpeg|gif)` followed by the literal
`;base64,`: the alternatives are mutually exclusive on any given input, so
the first (in the pattern's order) whose text extends to `;base64,` is the
match. Returns the subtype and the text after the comma. -/
def findSubtype (s : List Char) : Option (List Char × List Char) :=
  if isPre ("png".data ++ b64comma) s then
    some ("png".data, s.drop ("png".data ++ b64comma).length)
  else if isPre ("jpg".data ++ b64comma) s then
    some ("jpg".data, s.drop ("jpg".data ++ b64comma).length)
  else if isPre ("jpeg".data ++ b64comma) s then
    some ("jpeg".data, s.drop ("jpeg".data ++ b64comma).length)
  else if isPre ("gif".data ++ b64comma) s then
    some ("gif".data, s.drop ("gif".data ++ b64comma).length)
  else none

/-- One matched image reference: the three capture groups
(alt text, full data string, base64 run). -/
abbrev ImgMatch := List Char × List Char × List Char

/-- Match the part of the pattern after the literal `](`:
`\s*` then group 2 then `\)`. Returns groups 2 and 3 and the rest of the
line after the match. -/
def matchAfterBracket (s : List Char) : Option (List Char × List Char × List Char) :=
  let s1 := s.dropWhile isSpaceChar
  if isPre dataImg s1 then
    match findSubtype (s1.drop dataImg.length) with
    | some (sub, s3) =>
      match splitAtRparen s3 with
      | some (payload, rest) =>
        some (dataImg ++ sub ++ b64comma ++ payload, payload, rest)
      | none => none
    | none => none
  else none

/-- The lazy group `(.*?)` followed by the literal `](` and the rest of the
pattern: the shortest alt text (newline-free, as `.` does not match a
newline) whose continuation completes the pattern. `acc` holds the reversed
alt text scanned so far. -/
def findAlt (acc : List Char) : List Char → Option (List Char × List Char × List Char × List Char)
  | [] => none
  | c :: t =>
    if c = ']' then
      match t with
      | '(' :: u =>
        match matchAfterBracket u with
        | some (full, b64run, rest) => some (acc.reverse, full, b64run, rest)
        | none => findAlt (c :: acc) t
      | _ => findAlt (c :: acc) t
    else if c = '\n' then none
    else findAlt (c :: acc) t

/-- Try to match the image pattern at the head of the string. On success,
return the capture groups and the rest of the line after the match. -/
def tryMatchAt : List Char → Option (ImgMatch × List Char)
  | '!' :: '[' :: t =>
    match findAlt [] t with
    | some (alt, full, b64run, rest) => some ((alt, full, b64run), rest)
    | none => none
  | _ => none

/-- Fuelled leftmost non-overlapping scan of a line. Returns the list of
(text before the match, match) segments and the trailing text after the
last match; each step consumes at least one character, so `s.length` fuel
suffices. -/
def scanLineF : Nat → List Char → List (List Char × ImgMatch) × List Char
  | _, [] => ([], [])
  | 0, s => ([], s)
  | fuel + 1, c :: s =>
    match tryMatchAt (c :: s) with
    | some (m, rest) =>
      let res := scanLineF fuel rest
      (([], m) :: res.1, res.2)
    | none =>
      match scanLineF fuel s with
      | ((t, m) :: segs, trail) => ((c :: t, m) :: segs, trail)
      | ([], trail) => ([], c :: trail)

def scanLine (s : List Char) : List (List Char × ImgMatch) × List Char :=
  scanLineF s.length s

/-- `re.findall(image_pattern, line)` at line 121: the list of group
tuples, in left-to-right order. -/
def findMatches (s : List Char) : List ImgMatch :=
  (scanLine s).1.map Prod.snd

/-- `re.sub(image_pattern, '', line)` at line 125: the line with every
matched span removed. -/
def subMatches (s : List Char) : List Char :=
  (scanLine s).1.foldr (fun seg acc => seg.1 ++ acc) (scanLine s).2

/-- `full_data_string.split("base64,")[-1]` at line 135: the text after the
last occurrence of the separator, or the whole string if it does not
occur. Fuelled worker returning the suffix after the last occurrence. -/
def splitLastF (sep : List Char) : Nat → List Char → Option (List Char)
  | _, [] => none
  | 0, _ => none
  | fuel + 1, c :: t =>
    if isPre sep (c :: t) then
      let after := (c :: t).drop sep.length
      some ((splitLastF sep fuel after).getD after)
    else
      splitLastF sep fuel t

def pySplitLast (sep s : List Char) : List Char :=
  (splitLastF sep s.length s).getD s

/-- CPython `base64.b64decode` with `validate=False` on the inputs this
program produces: characters outside the alphabet and padding are
discarded; the remaining text must consist of four-character groups, the
last of which may carry one or two trailing padding characters; anything
else raises `binascii.Error`, modelled as `none`. -/
def decodeQuads : List Char → Option (List Nat)
  | [] => some []
  | a :: b :: '=' :: '=' :: rest => do
    let v1 ← b64Val a
    let v2 ← b64Val b
    if rest = [] then some [v1 * 4 + v2 / 16] else none
  | a :: b :: c :: '=' :: rest => do
    let v1 ← b64Val a
    let v2 ← b64Val b
    let v3 ← b64Val c
    if rest = [] then some [v1 * 4 + v2 / 16, (v2 % 16) * 16 + v3 / 4] else none
  | a :: b :: c :: d :: rest => do
    let v1 ← b64Val a
    let v2 ← b64Val b
    let v3 ← b64Val c
    let v4 ← b64Val d
    let tailBytes ← decodeQuads rest
    some ([v1 * 4 + v2 / 16, (v2 % 16) * 16 + v3 / 4, (v3 % 4) * 64 + v4] ++ tailBytes)
  | _ => none

def pyB64decode (s : List Char) : Option (List Nat) :=
  decodeQuads (s.filter (fun c => (b64Val c).isSome || c = '='))

/-- Lines 132-139 of the source: choose the text to decode — when the full
data string starts with `data:image`, the text after the last occurrence
of the separator `base64,` (line 135 is `split("base64,")[-1]`, with no
semicolon in the separator) — and run `base64.b64decode` on it; `none`
models the `binascii.Error` that propagates, since this call sits outside
the try block of lines 142-149. -/
def decodeMatch (m : ImgMatch) : Option (List Nat) :=
  let clean :=
    if isPre "data:image".data m.2.1 then pySplitLast "base64,".data m.2.1 else m.2.2
  pyB64decode clean

/-- A paragraph of the docx document being built: plain text, or a single
inline picture holding the decoded image bytes. A paragraph created at
line 147 whose `add_picture` then raises stays in the document as an empty
text paragraph, `Para.text []`. -/
inductive Para where
  | text (s : List Char)
  | pic (bytes : List Nat)
  deriving DecidableEq, Repr

/-- The three ways the try block at lines 142-148 can go on the decoded
bytes: `Image.open` raises (caught at 149, nothing was added);
`Image.open` succeeds but `run.add_picture` raises (caught at 149, the
paragraph appended at line 147 remains, empty — e.g. a WebP image that PIL
opens but python-docx rejects); or both succeed. -/
inductive PilOutcome where
  | openFail
  | addPicFail
  | ok
  deriving DecidableEq, Repr

/-- The image loop of lines 132-150: per match, decode (a decode error
aborts the whole function — `Except.error`), then the try block: on
`Image.open` failure the image is skipped; on `add_picture` failure the
empty paragraph added at line 147 remains; on success the paragraph holds
the picture. -/
def processImages (pil : List Nat → PilOutcome) : List ImgMatch → Except Unit (List Para)
  | [] => Except.ok []
  | m :: rest =>
    match decodeMatch m with
    | none => Except.error ()
    | some bytes =>
      match processImages pil rest with
      | Except.error e => Except.error e
      | Except.ok ps =>
        Except.ok ((match pil bytes with
          | PilOutcome.openFail => []
          | PilOutcome.addPicFail => [Para.text []]
          | PilOutcome.ok => [Para.pic bytes]) ++ ps)

/-- Lines 119-153: processing of one line of the markdown text. When
`matches` (= `findMatches line`) is empty the line is appended as one plain
paragraph; otherwise the stripped residual text is appended when non-empty,
followed by the image loop. -/
def renderLine (pil : List Nat → PilOutcome) (line : List Char) : Except Unit (List Para) :=
  if (findMatches line).isEmpty then
    Except.ok [Para.text line]
  else
    match processImages pil (findMatches line) with
    | Except.error e => Except.error e
    | Except.ok pics =>
      Except.ok ((if (pyStrip (subMatches line)).isEmpty then []
        else [Para.text (pyStrip (subMatches line))]) ++ pics)

/-- `markdown_text.split('\n')` at line 118. -/
def pySplitNL : List Char → List (List Char)
  | [] => [[]]
  | '\n' :: t => [] :: pySplitNL t
  | c :: t =>
    match pySplitNL t with
    | h :: r => (c :: h) :: r
    | [] => [[c]]

def renderDoc (pil : List Nat → PilOutcome) : List (List Char) → Except Unit (List Para)
  | [] => Except.ok []
  | l :: ls =>
    match renderLine pil l with
    | Except.error e => Except.error e
    | Except.ok ps =>
      match renderDoc pil ls with
      | Except.error e => Except.error e
      | Except.ok rest => Except.ok (ps ++ rest)

/-- ocr_pdf.py lines 98-157, `save_markdown_with_images_to_docx`: the docx
document is modelled as its paragraph list; an uncaught exception is
`Except.error ()` (in that case `document.save` at line 156 is never
reached and no document exists). -/
def save_markdown_with_images_to_docx (pil : List Nat → PilOutcome)
    (markdown_text : List Char) : Except Unit (List Para) :=
  renderDoc pil (pySplitNL markdown_text)

/-- A successful image loop emits only picture paragraphs and the empty
text paragraphs left behind by `add_picture` failures: every text
paragraph it emits is empty. -/
theorem processImages_text_empty (pil : List Nat → PilOutcome) :
    ∀ (ms : List ImgMatch) (ps : List Para),
      processImages pil ms = Except.ok ps → ∀ s, Para.text s ∈ ps → s = [] := by
  intro ms
  induction ms with
  | nil =>
    intro ps h s hs
    simp only [processImages] at h
    injection h with h'
    rw [← h'] at hs
    exact absurd hs (List.not_mem_nil _)
  | cons m rest ih =>
    intro ps h s hs
    simp only [processImages] at h
    cases hd : decodeMatch m with
    | none => rw [hd] at h; exact Except.noConfusion h
    | some bytes =>
      rw [hd] at h
      cases hrec : processImages pil rest with
      | error e => rw [hrec] at h; exact Except.noConfusion h
      | ok ps' =>
        rw [hrec] at h
        injection h with h'
        rw [← h'] at hs
        rcases List.mem_append.mp hs with hmm | hmm
        · cases hb : pil bytes with
          | openFail =>
            rw [hb] at hmm
            exact absurd hmm (List.not_mem_nil _)
          | addPicFail =>
            rw [hb] at hmm
            rcases List.mem_cons.mp hmm with he | he
            · exact (Para.text.injEq _ _).mp he
            · exact absurd he (List.not_mem_nil _)
          | ok =>
            rw [hb] at hmm
            rcases List.mem_cons.mp hmm with he | he
            · exact Para.noConfusion he
            · exact absurd he (List.not_mem_nil _)
        · exact ih ps' hrec s hmm

/-! ### The pipeline (ocr_pdf.py lines 163-241) and the CLI entry point
(lines 247-254)

`process_pdf_from_url` is a sequence of fallible stages inside
`try ... except Exception ... finally`. A run is modelled by the point, if
any, at which the first exception is raised; the result records which files
exist when the function returns and whether an exception escaped it.
Stages in source order: construct the client (line 173, before the local
name `local_pdf_path` is bound at line 179); fetch the PDF (lines 182-192;
a failure may occur before or after the bytes of the temporary file are
written); upload (line 196); signed URL (line 207); OCR (line 212); write
the JSON file (lines 220-227); render and save the DOCX (lines 230-232).
The `except` block at lines 234-235 logs and swallows every `Exception`.
The `finally` block at lines 236-239 removes the temporary file when it
exists — unless the failure occurred before line 179, in which case the
name `local_pdf_path` is unbound and the cleanup itself raises a
`NameError` that escapes the function (no temporary file exists in that
case). -/

inductive FailPoint where
  | noFail
  | clientInit
  | resolveFetch
  | resolveWrite
  | upload
  | sign
  | ocr
  | jsonWrite
  | docxSave
  deriving DecidableEq, Repr

structure RunResult where
  tempExists : Bool
  jsonExists : Bool
  docxExists : Bool
  uncaught : Bool
  deriving DecidableEq, Repr

def process_pdf_from_url (fp : FailPoint) : RunResult :=
  let tempWritten : Bool :=
    match fp with
    | FailPoint.clientInit | FailPoint.resolveFetch => false
    | _ => true
  let jsonWritten : Bool :=
    match fp with
    | FailPoint.docxSave | FailPoint.noFail => true
    | _ => false
  let docxWritten : Bool :=
    match fp with
    | FailPoint.noFail => true
    | _ => false
  match fp with
  | FailPoint.clientInit =>
    { tempExists := tempWritten, jsonExists := jsonWritten,
      docxExists := docxWritten, uncaught := true }
  | _ =>
    { tempExists := false, jsonExists := jsonWritten,
      docxExists := docxWritten, uncaught := false }

structure CliResult where
  exitCode : Nat
  usagePrinted : Bool
  run : Option RunResult
  deriving DecidableEq, Repr

/-- ocr_pdf.py lines 247-254: `sys.argv` (the script name followed by the
user arguments) must have length exactly 2, otherwise a usage message is
logged and the process exits with status 1 before the pipeline — and hence
any file creation — is reached; `run = none` records that the pipeline was
never invoked. -/
def cliMain (argv : List String) (fp : FailPoint) : CliResult :=
  if argv.length ≠ 2 then
    { exitCode := 1, usagePrinted := true, run := none }
  else
    let r := process_pdf_from_url fp
    { exitCode := if r.uncaught then 1 else 0, usagePrinted := false, run := some r }

/-! ### Claims -/

theorem replaceAll_self {c : Char} {p : List Char} (rep : List Char) :
    replaceAll (c :: p) rep (c :: p) = rep := by
  have hpre : isPre (c :: p) (c :: p) = true := by
    have h := isPre_append (c :: p) []
    rwa [List.append_nil] at h
  rw [replaceAll_cons_pos rep hpre]
  simp only [List.length_cons]
  rw [Nat.add_sub_cancel, List.drop_length, replaceAll_nil, List.append_nil]

/-- Claim C1: the spec states that a well-formed image tag whose base64
payload is malformed must not crash the render — only that image's
paragraph is to be omitted and the other content of the line emitted. The
code violates this: `base64.b64decode` at line 139 sits outside the try
block of lines 142-149, so `binascii.Error` propagates out of
`save_markdown_with_images_to_docx` and no document is produced at all.
Evaluation at the failing input: the line
`Hello ![x](data:image/png;base64,AAA)` (payload `AAA`, three base64
characters, not decodable) makes the render raise, for every behaviour
of the image library. -/
theorem claim_C1 : ∀ pil : List Nat → PilOutcome,
    save_markdown_with_images_to_docx pil
        "Hello ![x](data:image/png;base64,AAA)".data =
      Except.error () :=
  fun _ => rfl

/-- Claim C2, as stated, is false: when a base64 payload in the mapping
itself contains a placeholder of another mapped id, the sequential
`str.replace` loop rewrites the freshly substituted payload again, so the
embedded reference does not carry the identical payload from the mapping.
With markdown `![b](b)` and mapping `b ↦ ![a](a)`, `a ↦ y` (in that
insertion order), the result embeds
`![a](data:image/png;base64,y)` inside b's payload instead of the
mapping's literal `![a](a)`. -/
theorem claim_C2_counterexample :
    replace_images_in_markdown "![b](b)".data
        [("b".data, "![a](a)".data), ("a".data, "y".data)] =
      "![b](data:image/png;base64,![a](data:image/png;base64,y))".data ∧
    ("![b](data:image/png;base64,![a](data:image/png;base64,y))".data : List Char) ≠
      "![b](data:image/png;base64,![a](a))".data := by
  exact ⟨by decide, by decide⟩

/-- Claim C2, amended: provided the image ids are pairwise distinct and
consist of identifier characters (none of `!`, `[`, `]`, `(`, `)`, `:`)
and every payload consists of base64 characters (alphabet or padding) —
true of all real inputs, where ids name extracted images and payloads are
base64 encodings — the assembler equals the single left-to-right
simultaneous substitution `substOnePass`, which replaces each placeholder
occurrence of a mapped id exactly once by the embedded reference carrying
the identical payload from the mapping, copies all other text unchanged
(in particular placeholders of unmapped ids), and never fails. -/
theorem claim_C2 (images : List (List Char × List Char)) (s : List Char)
    (hOK : ∀ p ∈ images, idOK p.1 = true ∧ valOK p.2 = true)
    (hnd : (images.map Prod.fst).Nodup) :
    replace_images_in_markdown s images = substOnePass images s :=
  replace_images_eq_onePass images s hOK hnd

theorem claim_C2_witness :
    (∀ p ∈ [("i1".data, "QUJD".data)], idOK p.1 = true ∧ valOK p.2 = true) ∧
    (([("i1".data, "QUJD".data)].map Prod.fst).Nodup) ∧
    replace_images_in_markdown "see ![i1](i1) end".data
        [("i1".data, "QUJD".data)] =
      substOnePass [("i1".data, "QUJD".data)] "see ![i1](i1) end".data :=
  ⟨by decide, by decide, claim_C2 _ _ (by decide) (by decide)⟩

/-- Claim C3: the spec asks that a line with image references render as at
most one residual-text paragraph followed by one picture paragraph per
successfully decoded image, in order. The code violates this for the same
reason as C1: a payload whose base64 text is malformed raises outside the
per-image try block, aborting the whole render, so the later, perfectly
decodable image `b` yields no picture paragraph (and no document exists).
Evaluation at the failing input, with an image library that accepts all
bytes. -/
theorem claim_C3 :
    save_markdown_with_images_to_docx (fun _ => PilOutcome.ok)
        "![a](data:image/png;base64,AAA) ![b](data:image/png;base64,AAAA)".data =
      Except.error () :=
  rfl

/-- Claim C4: a line with zero image references is rendered as exactly one
plain-text paragraph whose content is the line itself, including the empty
line. -/
theorem claim_C4 (pil : List Nat → PilOutcome) (line : List Char)
    (h : findMatches line = []) :
    renderLine pil line = Except.ok [Para.text line] := by
  unfold renderLine
  rw [h]
  rfl

theorem claim_C4_witness :
    findMatches "Hello, world.".data = [] ∧
    renderLine (fun _ => PilOutcome.ok) "Hello, world.".data =
      Except.ok [Para.text "Hello, world.".data] :=
  ⟨by decide, claim_C4 (fun _ => PilOutcome.ok) "Hello, world.".data (by decide)⟩

/-- Claim C5: the assembled document text is the per-page transformed texts
joined by a blank line in page order; in particular, for the two-page
result with page 1 `A` (no images) and page 2 `![i1](i1)` with mapping
`i1 ↦ b64`, the assembled text is
`A\n\n![i1](data:image/png;base64,` ++ b64 ++ `)`. -/
theorem claim_C5 :
    (∀ r : OCRResponse, get_combined_markdown r =
      joinPages (r.pages.map fun page =>
        replace_images_in_markdown page.markdown
          (pyDictOfList (page.images.map fun img => (img.id, img.image_base64))))) ∧
    (∀ b64 : List Char,
      get_combined_markdown
          ⟨[⟨"A".data, []⟩, ⟨"![i1](i1)".data, [⟨"i1".data, b64⟩]⟩]⟩ =
        "A\n\n![i1](data:image/png;base64,".data ++ b64 ++ [')']) := by
  constructor
  · intro r; rfl
  · intro b64
    show joinPages ["A".data,
      replaceAll (ph "i1".data) (emb "i1".data b64) "![i1](i1)".data] = _
    have hx : ("![i1](i1)".data : List Char) = ph "i1".data := by decide
    have hph : ph "i1".data =
        '!' :: ('[' :: ("i1".data ++ (']' :: '(' :: ("i1".data ++ [')'])))) := rfl
    rw [hx, hph, replaceAll_self]
    show "A".data ++ ('\n' :: '\n' :: emb "i1".data b64) = _
    have hA : ("A".data : List Char) = ['A'] := by decide
    have hpre2 : ("A\n\n![i1](data:image/png;base64,".data : List Char) =
        'A' :: '\n' :: '\n' :: '!' :: '[' :: 'i' :: '1' :: ']' :: '(' :: dataPfx := by
      decide
    have hi1 : ("i1".data : List Char) = ['i', '1'] := by decide
    rw [List.append_assoc, hpre2, hA, emb, hi1]
    simp [List.append_assoc]

/-- Claim C6: rendering `Hello ![x](data:image/png;base64,AAA=)`, where
`AAA=` is valid base64 decoding to the two zero bytes — which are not a
valid image, so `Image.open` raises on them before any paragraph is added —
produces exactly one text paragraph `Hello` and no picture paragraph. -/
theorem claim_C6 (pil : List Nat → PilOutcome) (h : pil [0, 0] = PilOutcome.openFail) :
    save_markdown_with_images_to_docx pil
        "Hello ![x](data:image/png;base64,AAA=)".data =
      Except.ok [Para.text "Hello".data] := by
  have hsplit : pySplitNL "Hello ![x](data:image/png;base64,AAA=)".data =
      ["Hello ![x](data:image/png;base64,AAA=)".data] := by decide
  have hfm : findMatches "Hello ![x](data:image/png;base64,AAA=)".data =
      [("x".data, "data:image/png;base64,AAA=".data, "AAA=".data)] := by decide
  have hdm : decodeMatch ("x".data, "data:image/png;base64,AAA=".data, "AAA=".data) =
      some [0, 0] := by decide
  have hstrip : pyStrip (subMatches "Hello ![x](data:image/png;base64,AAA=)".data) =
      "Hello".data := by decide
  have hpi : processImages pil
      [("x".data, "data:image/png;base64,AAA=".data, "AAA=".data)] = Except.ok [] := by
    simp [processImages, hdm, h]
  have hline : renderLine pil "Hello ![x](data:image/png;base64,AAA=)".data =
      Except.ok [Para.text "Hello".data] := by
    unfold renderLine
    rw [hfm, hstrip, hpi]
    have hne : ("Hello".data : List Char).isEmpty = false := by decide
    rw [hne]
    rfl
  unfold save_markdown_with_images_to_docx
  rw [hsplit]
  simp [renderDoc, hline]

theorem claim_C6_witness :
    ((fun _ : List Nat => PilOutcome.openFail) [0, 0] = PilOutcome.openFail) ∧
    save_markdown_with_images_to_docx (fun _ => PilOutcome.openFail)
        "Hello ![x](data:image/png;base64,AAA=)".data =
      Except.ok [Para.text "Hello".data] :=
  ⟨rfl, claim_C6 (fun _ => PilOutcome.openFail) rfl⟩

/-- Claim C7: whatever stage fails, if any, the temporary local PDF file no
longer exists when `process_pdf_from_url` finishes: the `finally` block
removes it whenever it was created. (When the failure precedes the binding
of the path name, no temporary file was created in the first place.) -/
theorem claim_C7 : ∀ fp : FailPoint, (process_pdf_from_url fp).tempExists = false := by
  intro fp
  cases fp <;> rfl

/-- Claim C8: with an argument count other than one reference (that is,
`sys.argv` of length other than two), the CLI prints the usage message,
exits with status 1, and never reaches the pipeline, so no output files
are created. -/
theorem claim_C8 (argv : List String) (fp : FailPoint) (h : argv.length ≠ 2) :
    cliMain argv fp = { exitCode := 1, usagePrinted := true, run := none } := by
  unfold cliMain
  rw [if_pos h]

theorem claim_C8_witness :
    (["ocr_pdf.py"] : List String).length ≠ 2 ∧
    cliMain ["ocr_pdf.py"] FailPoint.noFail =
      { exitCode := 1, usagePrinted := true, run := none } :=
  ⟨by decide, claim_C8 ["ocr_pdf.py"] FailPoint.noFail (by decide)⟩

/-- Claim C9: the JSON file is written (lines 220-227) before rendering
begins (lines 230-232), so a run whose only failure is in rendering or
saving the DOCX leaves the JSON file on disk, no DOCX file, and the
swallowing `except` block lets the run finish without re-raising. -/
theorem claim_C9 :
    (process_pdf_from_url FailPoint.docxSave).jsonExists = true ∧
    (process_pdf_from_url FailPoint.docxSave).docxExists = false ∧
    (process_pdf_from_url FailPoint.docxSave).uncaught = false :=
  ⟨rfl, rfl, rfl⟩

/-- Claim C10: for a line with at least one image reference that renders
successfully, the residual-text paragraph, when emitted, opens the line's
output and its content is the line with all matched image tags removed and
then stripped; a line whose non-image content is only whitespace produces
no residual-text paragraph. In the rendered output, the residual-text
paragraph is exactly a non-empty text paragraph: the residual path
(lines 125-127) only fires on a non-empty stripped residue, and the only
other text paragraphs an image-bearing line can emit are the empty ones
left at line 147 when `add_picture` fails — which are not residual-text
paragraphs and are empty whatever the residue. So: when the stripped
residue is non-empty, it heads the output; every non-empty text paragraph
carries exactly the stripped residue; and when the residue is empty,
every text paragraph of the output is one of those empty leftovers. -/
theorem claim_C10 (pil : List Nat → PilOutcome) (line : List Char) (m : ImgMatch)
    (ms : List ImgMatch) (ps : List Para)
    (hm : findMatches line = m :: ms)
    (hok : renderLine pil line = Except.ok ps) :
    (pyStrip (subMatches line) ≠ [] →
      ps.head? = some (Para.text (pyStrip (subMatches line)))) ∧
    (∀ s, Para.text s ∈ ps → s ≠ [] → s = pyStrip (subMatches line)) ∧
    (pyStrip (subMatches line) = [] → ∀ s, Para.text s ∈ ps → s = []) := by
  unfold renderLine at hok
  rw [hm] at hok
  simp only [List.isEmpty_cons, Bool.false_eq_true, if_false] at hok
  cases hpi : processImages pil (m :: ms) with
  | error e => rw [hpi] at hok; exact Except.noConfusion hok
  | ok pics =>
    rw [hpi] at hok
    injection hok with h'
    refine ⟨?_, ?_, ?_⟩
    · intro hne
      have ht : (pyStrip (subMatches line)).isEmpty = false := by
        cases hT : pyStrip (subMatches line) with
        | nil => exact absurd hT hne
        | cons a l => rfl
      rw [← h', ht]
      rfl
    · intro s hs hsne
      rw [← h'] at hs
      rcases List.mem_append.mp hs with hh | hh
      · by_cases ht : (pyStrip (subMatches line)).isEmpty = true
        · rw [if_pos ht] at hh
          exact absurd hh (List.not_mem_nil _)
        · rw [if_neg ht] at hh
          rcases List.mem_cons.mp hh with he | he
          · exact (Para.text.injEq _ _).mp he
          · exact absurd he (List.not_mem_nil _)
      · exact absurd (processImages_text_empty pil _ pics hpi s hh) hsne
    · intro hempty s hs
      rw [← h'] at hs
      rcases List.mem_append.mp hs with hh | hh
      · have hemp : (pyStrip (subMatches line)).isEmpty = true := by
          rw [hempty]; rfl
        rw [if_pos hemp] at hh
        exact absurd hh (List.not_mem_nil _)
      · exact processImages_text_empty pil _ pics hpi s hh

theorem claim_C10_witness :
    (pyStrip (subMatches "  ![x](data:image/png;base64,AAAA)".data) ≠ [] →
      ([Para.text []] : List Para).head? =
        some (Para.text (pyStrip (subMatches "  ![x](data:image/png;base64,AAAA)".data)))) ∧
    (∀ s, Para.text s ∈ ([Para.text []] : List Para) → s ≠ [] →
      s = pyStrip (subMatches "  ![x](data:image/png;base64,AAAA)".data)) ∧
    (pyStrip (subMatches "  ![x](data:image/png;base64,AAAA)".data) = [] →
      ∀ s, Para.text s ∈ ([Para.text []] : List Para) → s = []) :=
  claim_C10 (fun _ => PilOutcome.addPicFail) "  ![x](data:image/png;base64,AAAA)".data
    ("x".data, "data:image/png;base64,AAAA".data, "AAAA".data) [] [Para.text []]
    (by decide) rfl

end OcrPdf
